import Mathlib

/-!
Verification of the supertux-trainer core against its specification.

Shallow embedding of the C++ sources:
* `src/memory/Pattern.cpp` / `include/memory/Pattern.h` — byte patterns with
  wildcards (parsing, printing, matching);
* `src/scanner/PatternScanner.cpp` — naive and "Boyer-Moore" scans over a
  materialized memory snapshot;
* `src/hooks/MinHookWrapper.cpp` — the mock hooking engine's global hook
  table (`MinHookWrapper`) and the per-hook `FunctionHook` wrapper.

Conventions of the embedding:
* bytes and addresses are `Nat` (a byte is kept `< 256`; parsing truncates
  with `% 256` exactly where the C++ casts to `uint8_t`);
* C++ strings are `List Char`;
* functions that throw (`std::invalid_argument` from pattern parsing) return
  `Option`;
* the mutable globals `s_initialized` / `s_hooks` of `MinHookWrapper` become
  an explicit state record threaded through the operations.  The diagnostic
  string `s_lastError` is write-only (never read by any control flow) and is
  not modelled.
-/

/-! ## Pattern (src/memory/Pattern.cpp) -/

/-- Embeds class `Pattern`: fields `m_bytes`, `m_mask`, `m_name`.
`m_mask[i] = true` means position `i` is a fixed byte, `false` a wildcard. -/
structure Pattern where
  bytes : List Nat
  mask : List Bool
  name : String
deriving DecidableEq

/-- Embeds `Pattern::size()` — number of pattern positions. -/
def Pattern.size (p : Pattern) : Nat := p.bytes.length

/-- Well-formedness of a constructed `Pattern`: byte and mask sequences have
equal length (enforced by the explicit constructor), at least one position
(spec invariant, enforced by the parsing constructor), and every byte fits in
`uint8_t`. -/
def Pattern.WF (p : Pattern) : Prop :=
  p.bytes.length = p.mask.length ∧ 0 < p.bytes.length ∧ ∀ b ∈ p.bytes, b < 256

instance (p : Pattern) : Decidable p.WF := by
  unfold Pattern.WF; infer_instance

/-- Embeds `Pattern::matches(const uint8_t* data)`: the loop over
`i < m_bytes.size()` returning `false` as soon as a fixed position disagrees,
`true` otherwise.  `data` is the byte buffer the C++ pointer points into. -/
def Pattern.matches (p : Pattern) (data : List Nat) : Bool :=
  (List.range p.bytes.length).all
    (fun i => !(p.mask.getD i false) || decide (data.getD i 0 = p.bytes.getD i 0))

/-- C1: `P.matches(B)` is true iff every fixed position of `P` agrees with
`B`; wildcard positions never affect the result (the characterization on the
right only constrains fixed positions, and the second conjunct shows any
buffer agreeing on the fixed positions produces the same result). -/
theorem matches_iff_fixed_positions_agree (p : Pattern) (data : List Nat)
    (hm : p.bytes.length = p.mask.length) (hd : p.size ≤ data.length) :
    (p.matches data = true ↔
      ∀ i < p.size, p.mask.getD i false = true → data.getD i 0 = p.bytes.getD i 0) ∧
    (∀ data2 : List Nat, p.size ≤ data2.length →
      (∀ i < p.size, p.mask.getD i false = true → data2.getD i 0 = data.getD i 0) →
      p.matches data2 = p.matches data) := by
  have key : ∀ d : List Nat, (p.matches d = true ↔
      ∀ i < p.size, p.mask.getD i false = true → d.getD i 0 = p.bytes.getD i 0) := by
    intro d
    unfold Pattern.matches Pattern.size
    rw [List.all_eq_true]
    constructor
    · intro h i hi hfix
      have hmem := h i (List.mem_range.mpr hi)
      rw [hfix] at hmem
      simpa using hmem
    · intro h i hi
      cases hb : p.mask.getD i false with
      | false => simp
      | true =>
        simp only [Bool.not_true, Bool.false_or, decide_eq_true_eq]
        exact h i (List.mem_range.mp hi) hb
  refine ⟨key data, ?_⟩
  intro data2 _ hagree
  rw [Bool.eq_iff_iff, key data2, key data]
  constructor
  · intro h i hi hfix
    rw [← hagree i hi hfix]
    exact h i hi hfix
  · intro h i hi hfix
    rw [hagree i hi hfix]
    exact h i hi hfix

/-- Witness for C1 at spec scenario 1: pattern `"48 8B 05"` against
`[0x48, 0x8B, 0x05, 0x12]` matches, and the characterization holds there. -/
theorem matches_iff_fixed_positions_agree_witness :
    Pattern.matches ⟨[0x48, 0x8B, 0x05], [true, true, true], ""⟩ [0x48, 0x8B, 0x05, 0x12] = true :=
  ((matches_iff_fixed_positions_agree ⟨[0x48, 0x8B, 0x05], [true, true, true], ""⟩
    [0x48, 0x8B, 0x05, 0x12] (by decide) (by decide)).1).mpr (by decide)

/-! ## PatternScanner (src/scanner/PatternScanner.cpp)

`readMemoryRegion` materializes the snapshot (or `{}` on provider failure),
`naiveScan` is the loop of `PatternScanner::naiveScan`, and
`boyerMooreScan` is the source's fallback, which just calls the naive scan.
A scan's outcome is modelled as `Option Nat` — `some` holds the reported
`result.address`, `none` is the `false` (miss / failure) return. -/

/-- The loop of `PatternScanner::naiveScan`:
`for (i = 0; i <= memory.size() - patternSize; ++i)` — `fuel` is the number
of remaining iterations, `i` the current offset into the snapshot. -/
def scanLoop (p : Pattern) (snap : List Nat) : Nat → Nat → Option Nat
  | _, 0 => none
  | i, fuel + 1 =>
    if p.matches (snap.drop i) then some i else scanLoop p snap (i + 1) fuel

/-- Embeds `PatternScanner::naiveScan`, run on an already-materialized
snapshot: empty snapshot fails, pattern longer than snapshot fails, otherwise
the loop runs over offsets `0 .. snap.length - p.size` and the reported
address is `startAddress + i` for the first matching `i`. -/
def naiveScan (p : Pattern) (startAddress : Nat) (snap : List Nat) : Option Nat :=
  if snap.isEmpty then none
  else if snap.length < p.size then none
  else (scanLoop p snap 0 (snap.length - p.size + 1)).map (fun i => startAddress + i)

/-- Embeds `PatternScanner::boyerMooreScan`: the source comment says
"For demonstration, we'll use the naive scan" and the body is a single call
to `naiveScan`. -/
def boyerMooreScan (p : Pattern) (startAddress : Nat) (snap : List Nat) : Option Nat :=
  naiveScan p startAddress snap

/-- Embeds the `IMemoryProvider` interface (include/scanner/PatternScanner.h):
`readMemory` yields the requested bytes or fails. -/
structure IMemoryProvider where
  readMemory : Nat → Nat → Option (List Nat)
  getModuleBase : String → Nat
  getModuleSize : String → Nat
  isValidAddress : Nat → Bool

/-- Embeds `PatternScanner::readMemoryRegion`: the bytes on success, `{}` on
provider failure. -/
def readMemoryRegion (mp : IMemoryProvider) (address size : Nat) : List Nat :=
  match mp.readMemory address size with
  | some buffer => buffer
  | none => []

/-- Embeds `PatternScanner::scanSingle` (the provider-null check is dropped:
the provider is a structure field here, never null): validates the start
address, then dispatches on the `m_useBoyerMoore` switch. -/
def scanSingle (mp : IMemoryProvider) (useBoyerMoore : Bool) (p : Pattern)
    (startAddress size : Nat) : Option Nat :=
  if !mp.isValidAddress startAddress then none
  else if useBoyerMoore then
    boyerMooreScan p startAddress (readMemoryRegion mp startAddress size)
  else
    naiveScan p startAddress (readMemoryRegion mp startAddress size)

theorem scanLoop_eq_some_iff (p : Pattern) (snap : List Nat) :
    ∀ (fuel i a : Nat), scanLoop p snap i fuel = some a ↔
      i ≤ a ∧ a < i + fuel ∧ p.matches (snap.drop a) = true ∧
        ∀ j, i ≤ j → j < a → p.matches (snap.drop j) = false := by
  intro fuel
  induction fuel with
  | zero => intro i a; simp [scanLoop]; omega
  | succ n ih =>
    intro i a
    unfold scanLoop
    cases hm : p.matches (snap.drop i) with
    | true =>
      simp only [hm, if_true, Option.some_inj]
      constructor
      · rintro rfl
        exact ⟨le_refl _, by omega, hm, fun j h1 h2 => absurd h1 (by omega)⟩
      · rintro ⟨h1, _, _, h4⟩
        rcases Nat.eq_or_lt_of_le h1 with rfl | hi
        · rfl
        · have := h4 i (le_refl _) hi
          rw [hm] at this
          exact absurd this (by simp)
    | false =>
      rw [if_neg (by simp [hm]), ih (i + 1) a]
      constructor
      · rintro ⟨h1, h2, h3, h4⟩
        refine ⟨by omega, by omega, h3, ?_⟩
        intro j hj1 hj2
        rcases Nat.eq_or_lt_of_le hj1 with rfl | hj
        · exact hm
        · exact h4 j hj hj2
      · rintro ⟨h1, h2, h3, h4⟩
        have hia : i ≠ a := by
          intro h
          rw [← h] at h3
          rw [hm] at h3
          exact absurd h3 (by simp)
        refine ⟨by omega, by omega, h3, ?_⟩
        intro j hj1 hj2
        exact h4 j (by omega) hj2

/-- C2: on a materialized snapshot, the scan misses (plain `false`, no error
channel exists) whenever the pattern is longer than the snapshot; otherwise
the reported address is `startAddress` plus the least matching offset `i`
with `i + p.size ≤ snap.length`, and the result is a function of the
snapshot alone (the embedding is a pure function, so determinism is
inherent). -/
theorem scanSingle_reports_first_match (p : Pattern) (startAddress : Nat)
    (snap : List Nat) (hp : 0 < p.size) :
    (snap.length < p.size → naiveScan p startAddress snap = none) ∧
    (∀ a, naiveScan p startAddress snap = some a ↔
      ∃ i, i + p.size ≤ snap.length ∧ p.matches (snap.drop i) = true ∧
        (∀ j < i, p.matches (snap.drop j) = false) ∧ a = startAddress + i) ∧
    (∀ (mp : IMemoryProvider) (useBM : Bool) (size : Nat),
      mp.isValidAddress startAddress = true →
      readMemoryRegion mp startAddress size = snap →
      scanSingle mp useBM p startAddress size = naiveScan p startAddress snap) := by
  refine ⟨?_, ?_, ?_⟩
  · intro hlen
    unfold naiveScan
    by_cases he : snap.isEmpty
    · rw [if_pos he]
    · rw [if_neg he, if_pos hlen]
  · intro a
    unfold naiveScan
    by_cases he : snap.isEmpty
    · rw [if_pos he]
      have hnil : snap = [] := List.isEmpty_iff.mp he
      subst hnil
      simp only [List.length_nil]
      constructor
      · intro h; simp at h
      · rintro ⟨i, h1, -⟩
        omega
    · by_cases hlen : snap.length < p.size
      · rw [if_neg he, if_pos hlen]
        constructor
        · intro h; simp at h
        · rintro ⟨i, h1, _⟩; omega
      · rw [if_neg he, if_neg hlen]
        have hsz : p.size ≤ snap.length := Nat.le_of_not_lt hlen
        constructor
        · intro h
          rcases Option.map_eq_some'.mp h with ⟨m, hm, hfa⟩
          rcases (scanLoop_eq_some_iff p snap _ 0 m).mp hm with ⟨_, h2, h3, h4⟩
          exact ⟨m, by omega, h3, fun j hj => h4 j (Nat.zero_le j) hj, hfa.symm⟩
        · rintro ⟨i, h1, h2, h3, rfl⟩
          apply Option.map_eq_some'.mpr
          refine ⟨i, (scanLoop_eq_some_iff p snap _ 0 i).mpr
            ⟨Nat.zero_le i, by omega, h2, fun j _ hj => h3 j hj⟩, rfl⟩
  · intro mp useBM size hv hr
    unfold scanSingle
    rw [hv]
    simp only [Bool.not_true, Bool.false_eq_true, if_false]
    cases useBM with
    | false =>
      rw [if_neg (by simp), hr]
    | true =>
      rw [if_pos rfl]
      unfold boyerMooreScan
      rw [hr]

/-- Witness for C2: pattern `48 8B` over snapshot `[10 48 8B 48]` starting at
address 1000 reports the first (lowest) matching offset 1, address 1001. -/
theorem scanSingle_reports_first_match_witness :
    naiveScan ⟨[0x48, 0x8B], [true, true], ""⟩ 1000 [0x10, 0x48, 0x8B, 0x48] = some 1001 :=
  ((scanSingle_reports_first_match ⟨[0x48, 0x8B], [true, true], ""⟩ 1000
      [0x10, 0x48, 0x8B, 0x48] (by decide)).2.1 1001).mpr
    ⟨1, by decide, by decide, by decide, rfl⟩

/-- C9: the skip-accelerated scan the algorithm switch selects
(`boyerMooreScan`, which the source implements as a fallback to the naive
scan) reports exactly the naive scan's result on every pattern and region:
same first-match address, same misses. -/
theorem scan_algorithms_agree (mp : IMemoryProvider) (p : Pattern)
    (startAddress size : Nat) :
    boyerMooreScan p startAddress (readMemoryRegion mp startAddress size) =
      naiveScan p startAddress (readMemoryRegion mp startAddress size) ∧
    scanSingle mp true p startAddress size = scanSingle mp false p startAddress size := by
  exact ⟨rfl, rfl⟩

/-! ## Pattern parsing and printing (src/memory/Pattern.cpp)

`Pattern::parsePatternString` tokenizes with `istringstream >> token`
(maximal runs of non-whitespace characters), treats `"??"` as a wildcard and
otherwise converts the token with `std::stoul(token, nullptr, 16)` followed
by a cast to `uint8_t`; any `std::stoul` exception becomes the
"Invalid pattern token" error, and an empty token list the
"Pattern string cannot be empty" error.  Both are `std::invalid_argument`
(the PatternSyntax error), so the embedding returns `Option Pattern` with
`none` for either failure.

`std::stoul(tok, nullptr, 16)` is `strtoul` on a 64-bit `unsigned long`:
skip leading whitespace, optional `+`/`-` sign, optional `0x`/`0X` prefix
(consumed only when a hexadecimal digit follows), then the longest run of
hexadecimal digits; no digits converted raises `invalid_argument`, a value
above `ULONG_MAX` raises `out_of_range`, a `-` sign negates modulo 2^64,
and trailing unconverted characters are silently ignored. -/

/-- Whitespace of `std::isspace` in the default "C" locale:
space, `\t`, `\n`, vertical tab, form feed, `\r`. -/
def isSpaceC (c : Char) : Bool :=
  decide (c ∈ [' ', '\t', '\n', Char.ofNat 11, Char.ofNat 12, '\r'])

/-- Hexadecimal digit test (`isxdigit`) as used by `strtoul` base 16. -/
def isHexDigit (c : Char) : Bool :=
  ('0' ≤ c && c ≤ '9') || ('a' ≤ c && c ≤ 'f') || ('A' ≤ c && c ≤ 'F')

/-- Numeric value of a hexadecimal digit character. -/
def hexVal (c : Char) : Nat :=
  if '0' ≤ c && c ≤ '9' then c.toNat - '0'.toNat
  else if 'a' ≤ c && c ≤ 'f' then c.toNat - 'a'.toNat + 10
  else c.toNat - 'A'.toNat + 10

/-- Tokenizer core for `istringstream >> token`: `acc` holds the (reversed)
characters of the token currently being read. -/
def splitWsAux : List Char → List Char → List (List Char)
  | [], acc => if acc.isEmpty then [] else [acc.reverse]
  | c :: cs, acc =>
    if isSpaceC c then
      if acc.isEmpty then splitWsAux cs [] else acc.reverse :: splitWsAux cs []
    else splitWsAux cs (c :: acc)

/-- The whitespace-delimited tokens of a string, in order — the sequence of
tokens `while (iss >> token)` yields. -/
def splitWs (s : List Char) : List (List Char) := splitWsAux s []

/-- Sign handling of `strtoul`: an optional leading `+` or `-`. -/
def splitSign : List Char → Bool × List Char
  | [] => (false, [])
  | c :: cs =>
    if c = '-' then (true, cs)
    else if c = '+' then (false, cs)
    else (false, c :: cs)

/-- Whether a character list starts with a hexadecimal digit. -/
def firstIsHexDigit : List Char → Bool
  | [] => false
  | d :: _ => isHexDigit d

/-- Base marker (`0x`/`0X`) handling of `strtoul` base 16: the prefix is consumed only
when a hexadecimal digit follows it. -/
def stripBase16Marker (l : List Char) : List Char :=
  match l with
  | a :: x :: r =>
    if a = '0' ∧ (x = 'x' ∨ x = 'X') ∧ firstIsHexDigit r = true then r
    else a :: x :: r
  | _ => l

/-- The digit run `strtoul` converts for a given token. -/
def hexDigitsOf (tok : List Char) : List Char :=
  (stripBase16Marker (splitSign (tok.dropWhile isSpaceC)).2).takeWhile isHexDigit

/-- Whether `strtoul` saw a `-` sign in the token. -/
def stoulNeg (tok : List Char) : Bool := (splitSign (tok.dropWhile isSpaceC)).1

/-- Accumulated value of a digit run. -/
def hexValue (ds : List Char) : Nat := ds.foldl (fun a c => a * 16 + hexVal c) 0

/-- Value of `ULONG_MAX` for the 64-bit `unsigned long` of the target platform. -/
def ULONG_MAX : Nat := 2 ^ 64 - 1

/-- Embeds `std::stoul(tok, nullptr, 16)`: `none` when the call throws
(`invalid_argument`: no digits; `out_of_range`: value above `ULONG_MAX`),
otherwise the converted value, negated modulo 2^64 under a `-` sign. -/
def stoulHex (tok : List Char) : Option Nat :=
  if (hexDigitsOf tok).isEmpty then none
  else if ULONG_MAX < hexValue (hexDigitsOf tok) then none
  else some (if stoulNeg tok then (2 ^ 64 - hexValue (hexDigitsOf tok) % 2 ^ 64) % 2 ^ 64
             else hexValue (hexDigitsOf tok))

/-- One iteration of the parsing loop: `"??"` pushes a wildcard position
(byte 0, mask false), any other token goes through `stoulHex` and the
`uint8_t` cast (`% 256`) with mask true. -/
def parseTok (t : List Char) : Option (Nat × Bool) :=
  if t = ['?', '?'] then some (0, false)
  else (stoulHex t).map (fun v => (v % 256, true))

/-- The parsing loop over all tokens; `none` as soon as a token is bad. -/
def parseTokens : List (List Char) → Option (List (Nat × Bool))
  | [] => some []
  | t :: ts =>
    match parseTok t, parseTokens ts with
    | some p, some ps => some (p :: ps)
    | _, _ => none

/-- Embeds `Pattern::parsePatternString` (and so the string constructor of
`Pattern`): tokenize, convert every token, fail on an empty result. -/
def parsePatternString (s : List Char) : Option Pattern :=
  match parseTokens (splitWs s) with
  | none => none
  | some ps => if ps.isEmpty then none else some ⟨ps.map Prod.fst, ps.map Prod.snd, ""⟩

/-- Lowercase hexadecimal digit of `std::hex` output. -/
def hexDigitChar (n : Nat) : Char :=
  if n < 10 then Char.ofNat ('0'.toNat + n) else Char.ofNat ('a'.toNat + (n - 10))

/-- Output of `std::hex << std::setw(2) << std::setfill('0')` applied to a byte:
exactly two lowercase hexadecimal digits. -/
def byteToHex (b : Nat) : List Char := [hexDigitChar (b / 16), hexDigitChar (b % 16)]

/-- The token `Pattern::toString` emits for one (byte, mask) position. -/
def tokenOfPosition (bm : Nat × Bool) : List Char :=
  if bm.2 then byteToHex bm.1 else ['?', '?']

/-- The token sequence of `Pattern::toString`. -/
def Pattern.tokenList (p : Pattern) : List (List Char) :=
  (p.bytes.zip p.mask).map tokenOfPosition

/-- Single-space joining of `Pattern::toString`
(`if (i > 0) oss << " "`). -/
def joinSp : List (List Char) → List Char
  | [] => []
  | t :: ts => t ++ (ts.map (fun u => ' ' :: u)).flatten

/-- Embeds `Pattern::toString`. -/
def Pattern.toString (p : Pattern) : List Char := joinSp p.tokenList

/-- A token the parser accepts: the wildcard marker, or a token `stoulHex`
converts. -/
def tokenAccepted (t : List Char) : Bool :=
  t == ['?', '?'] || (stoulHex t).isSome

/-- A token of the spec's grammar: the wildcard marker `??` or exactly two
hexadecimal digits (`[0-9A-Fa-f]{2}`). -/
def grammarToken (t : List Char) : Bool :=
  t == ['?', '?'] || (t.length == 2 && t.all isHexDigit)

theorem splitWsAux_append (t : List Char) (h : ∀ c ∈ t, isSpaceC c = false) :
    ∀ (l acc : List Char), splitWsAux (t ++ l) acc = splitWsAux l (t.reverse ++ acc) := by
  induction t with
  | nil => intro l acc; simp
  | cons c cs ih =>
    intro l acc
    have hc : isSpaceC c = false := h c (by simp)
    have step : splitWsAux (c :: (cs ++ l)) acc = splitWsAux (cs ++ l) (c :: acc) := by
      simp [splitWsAux, hc]
    simp only [List.cons_append]
    rw [step, ih (fun d hd => h d (by simp [hd])) l (c :: acc)]
    simp [List.append_assoc]

theorem splitWs_single (t : List Char) (hne : t ≠ [])
    (h : ∀ c ∈ t, isSpaceC c = false) : splitWs t = [t] := by
  unfold splitWs
  have happ := splitWsAux_append t h [] []
  rw [List.append_nil] at happ
  rw [happ]
  have hrev : t.reverse.isEmpty = false := by
    rw [← Bool.not_eq_true, List.isEmpty_iff, List.reverse_eq_nil_iff]
    exact hne
  simp [splitWsAux, hrev]

theorem splitWs_token_cons (t rest : List Char) (hne : t ≠ [])
    (h : ∀ c ∈ t, isSpaceC c = false) :
    splitWs (t ++ ' ' :: rest) = t :: splitWs rest := by
  unfold splitWs
  rw [splitWsAux_append t h (' ' :: rest) []]
  rw [List.append_nil]
  have hrev : t.reverse.isEmpty = false := by
    rw [← Bool.not_eq_true, List.isEmpty_iff, List.reverse_eq_nil_iff]
    exact hne
  have hsp : isSpaceC ' ' = true := by decide
  simp [splitWsAux, hsp, hrev]

theorem splitWs_joinSp : ∀ ts : List (List Char), ts ≠ [] →
    (∀ t ∈ ts, t ≠ [] ∧ ∀ c ∈ t, isSpaceC c = false) →
    splitWs (joinSp ts) = ts := by
  intro ts
  induction ts with
  | nil => intro hcon; exact absurd rfl hcon
  | cons t ts ih =>
    intro _ h
    obtain ⟨hne, hws⟩ := h t (by simp)
    cases ts with
    | nil =>
      simp only [joinSp, List.map_nil, List.flatten_nil, List.append_nil]
      exact splitWs_single t hne hws
    | cons u ts2 =>
      have hj : joinSp (t :: u :: ts2) = t ++ ' ' :: joinSp (u :: ts2) := by
        simp [joinSp]
      rw [hj, splitWs_token_cons t _ hne hws,
        ih (by simp) (fun x hx => h x (by simp [hx]))]

theorem isHexDigit_props (c : Char) (h : isHexDigit c = true) :
    isSpaceC c = false ∧ c ≠ '+' ∧ c ≠ '-' ∧ c ≠ 'x' ∧ c ≠ 'X' ∧ c ≠ '?' := by
  refine ⟨?_, ?_, ?_, ?_, ?_, ?_⟩
  · cases hsp : isSpaceC c
    · rfl
    · exfalso
      have hmem : c ∈ [' ', '\t', '\n', Char.ofNat 11, Char.ofNat 12, '\r'] :=
        of_decide_eq_true hsp
      fin_cases hmem <;> exact absurd h (by decide)
  all_goals (rintro rfl; exact absurd h (by decide))

theorem hexDigitChar_spec (n : Nat) (h : n < 16) :
    isHexDigit (hexDigitChar n) = true ∧ hexVal (hexDigitChar n) = n := by
  interval_cases n <;> exact ⟨by decide, by decide⟩

theorem hexVal_bound (c : Char) : hexVal c < 2 ^ 33 := by
  have h32 : c.toNat < 2 ^ 32 := by
    have := c.val.toNat_lt
    simpa [Char.toNat] using this
  unfold hexVal
  split_ifs <;> omega

theorem hexValue_pair_le (c1 c2 : Char) : hexValue [c1, c2] ≤ ULONG_MAX := by
  have b1 := hexVal_bound c1
  have b2 := hexVal_bound c2
  have hv : hexValue [c1, c2] = (0 * 16 + hexVal c1) * 16 + hexVal c2 := rfl
  unfold ULONG_MAX
  rw [hv]
  omega

theorem hexDigitsOf_pair (c1 c2 : Char) (h1 : isHexDigit c1 = true)
    (h2 : isHexDigit c2 = true) : hexDigitsOf [c1, c2] = [c1, c2] := by
  obtain ⟨hs1, hp1, hm1, _, _, _⟩ := isHexDigit_props c1 h1
  obtain ⟨_, _, _, hx2, hX2, _⟩ := isHexDigit_props c2 h2
  have e1 : List.dropWhile isSpaceC [c1, c2] = [c1, c2] := by
    simp [List.dropWhile_cons, hs1]
  have e2 : splitSign [c1, c2] = (false, [c1, c2]) := by
    simp [splitSign, hm1, hp1]
  have e3 : stripBase16Marker [c1, c2] = [c1, c2] := by
    simp [stripBase16Marker, hx2, hX2]
  have e4 : List.takeWhile isHexDigit [c1, c2] = [c1, c2] := by
    simp [List.takeWhile_cons, h1, h2]
  simp [hexDigitsOf, e1, e2, e3, e4]

theorem stoulNeg_pair (c1 c2 : Char) (h1 : isHexDigit c1 = true) :
    stoulNeg [c1, c2] = false := by
  obtain ⟨hs1, hp1, hm1, _, _, _⟩ := isHexDigit_props c1 h1
  have e1 : List.dropWhile isSpaceC [c1, c2] = [c1, c2] := by
    simp [List.dropWhile_cons, hs1]
  have e2 : splitSign [c1, c2] = (false, [c1, c2]) := by
    simp [splitSign, hm1, hp1]
  simp [stoulNeg, e1, e2]

theorem stoulHex_pair (c1 c2 : Char) (h1 : isHexDigit c1 = true)
    (h2 : isHexDigit c2 = true) :
    stoulHex [c1, c2] = some (hexValue [c1, c2]) := by
  unfold stoulHex
  rw [hexDigitsOf_pair c1 c2 h1 h2, stoulNeg_pair c1 c2 h1]
  rw [if_neg (by simp), if_neg (by have := hexValue_pair_le c1 c2; omega)]
  simp

theorem parseTok_hex_pair (c1 c2 : Char) (h1 : isHexDigit c1 = true)
    (h2 : isHexDigit c2 = true) :
    parseTok [c1, c2] = some (hexValue [c1, c2] % 256, true) := by
  have hq1 := (isHexDigit_props c1 h1).2.2.2.2.2
  unfold parseTok
  rw [if_neg (by simp [hq1]), stoulHex_pair c1 c2 h1 h2]
  rfl

theorem parseTok_byteToHex (b : Nat) (hb : b < 256) :
    parseTok (byteToHex b) = some (b, true) := by
  have hd1 := hexDigitChar_spec (b / 16) (by omega)
  have hd2 := hexDigitChar_spec (b % 16) (by omega)
  unfold byteToHex
  rw [parseTok_hex_pair _ _ hd1.1 hd2.1]
  have hv : hexValue [hexDigitChar (b / 16), hexDigitChar (b % 16)] = b := by
    have e : hexValue [hexDigitChar (b / 16), hexDigitChar (b % 16)] =
        (0 * 16 + hexVal (hexDigitChar (b / 16))) * 16 + hexVal (hexDigitChar (b % 16)) := rfl
    rw [e, hd1.2, hd2.2]
    omega
  rw [hv, Nat.mod_eq_of_lt hb]

theorem parseTokens_map_tokenOfPosition (l : List (Nat × Bool))
    (h : ∀ bm ∈ l, bm.1 < 256) :
    parseTokens (l.map tokenOfPosition) =
      some (l.map (fun bm => (if bm.2 then bm.1 else 0, bm.2))) := by
  induction l with
  | nil => rfl
  | cons bm l ih =>
    have hb := h bm (by simp)
    have hrest := ih (fun x hx => h x (by simp [hx]))
    obtain ⟨b, m⟩ := bm
    cases m with
    | true =>
      simp only [List.map_cons, parseTokens, tokenOfPosition, if_true]
      rw [parseTok_byteToHex b hb, hrest]
    | false =>
      simp only [List.map_cons, parseTokens, tokenOfPosition]
      rw [if_neg (by simp)]
      have hq : parseTok ['?', '?'] = some (0, false) := rfl
      rw [hq, hrest]
      rfl

theorem tokenOfPosition_ok (bm : Nat × Bool) (hb : bm.1 < 256) :
    tokenOfPosition bm ≠ [] ∧ ∀ c ∈ tokenOfPosition bm, isSpaceC c = false := by
  obtain ⟨b, m⟩ := bm
  cases m with
  | false =>
    refine ⟨by simp [tokenOfPosition], ?_⟩
    intro c hc
    simp [tokenOfPosition] at hc
    subst hc
    decide
  | true =>
    have hd1 := hexDigitChar_spec (b / 16) (by simp at hb; omega)
    have hd2 := hexDigitChar_spec (b % 16) (by omega)
    refine ⟨by simp [tokenOfPosition, byteToHex], ?_⟩
    intro c hc
    simp only [tokenOfPosition, if_true, byteToHex] at hc
    rcases List.mem_cons.mp hc with rfl | hc2
    · exact (isHexDigit_props _ hd1.1).1
    · rcases List.mem_singleton.mp hc2 with rfl
      exact (isHexDigit_props _ hd2.1).1

/-- C4 counterexample: the Pattern built by the explicit byte/mask
constructor from byte `0x41` under a wildcard mask is valid, yet re-parsing
its `toString` (the single token `??`) yields byte `0x00` there — not the
same byte sequence. -/
theorem toString_roundTrip_counterexample :
    Pattern.WF ⟨[0x41], [false], ""⟩ ∧
    Pattern.toString ⟨[0x41], [false], ""⟩ = ['?', '?'] ∧
    parsePatternString (Pattern.toString ⟨[0x41], [false], ""⟩) =
      some ⟨[0], [false], ""⟩ ∧
    (⟨[0], [false], ""⟩ : Pattern).bytes ≠ (⟨[0x41], [false], ""⟩ : Pattern).bytes := by
  refine ⟨by decide, by decide, by decide, by decide⟩

/-- C4 (amended): re-parsing `P.toString()` succeeds for every valid `P` and
reproduces the mask exactly and the bytes at every fixed position; bytes at
wildcard positions are normalized to `0x00` (so the byte sequences agree
whenever `P` stores `0x00` at wildcards, e.g. any `P` built by parsing, but
not in general). -/
theorem parse_toString_roundTrip (p : Pattern) (h : p.WF) :
    parsePatternString (Pattern.toString p) =
      some ⟨(p.bytes.zip p.mask).map (fun bm => if bm.2 then bm.1 else 0), p.mask, ""⟩ := by
  obtain ⟨hlen, hpos, hbytes⟩ := h
  have hzlen : (p.bytes.zip p.mask).length = p.bytes.length := by
    rw [List.length_zip, ← hlen, Nat.min_self]
  have hmem : ∀ bm ∈ p.bytes.zip p.mask, bm.1 < 256 := by
    intro bm hbm
    exact hbytes bm.1 (List.of_mem_zip hbm).1
  have htoks : ∀ t ∈ p.tokenList, t ≠ [] ∧ ∀ c ∈ t, isSpaceC c = false := by
    intro t ht
    unfold Pattern.tokenList at ht
    rcases List.mem_map.mp ht with ⟨bm, hbm, rfl⟩
    exact tokenOfPosition_ok bm (hmem bm hbm)
  have hne : p.tokenList ≠ [] := by
    unfold Pattern.tokenList
    intro hcon
    rw [List.map_eq_nil_iff] at hcon
    rw [hcon] at hzlen
    simp at hzlen
    omega
  unfold parsePatternString Pattern.toString
  rw [splitWs_joinSp p.tokenList hne htoks]
  unfold Pattern.tokenList
  rw [parseTokens_map_tokenOfPosition _ hmem]
  have hmapne :
      (p.bytes.zip p.mask).map (fun bm => (if bm.2 then bm.1 else 0, bm.2)) ≠ [] := by
    intro hcon
    rw [List.map_eq_nil_iff] at hcon
    rw [hcon] at hzlen
    simp at hzlen
    omega
  have hie :
      ((p.bytes.zip p.mask).map (fun bm => (if bm.2 = true then bm.1 else 0, bm.2))).isEmpty
        = false := by
    rw [← Bool.not_eq_true, List.isEmpty_iff]
    exact hmapne
  have hfst :
      ((p.bytes.zip p.mask).map (fun bm => (if bm.2 = true then bm.1 else 0, bm.2))).map
          Prod.fst
        = (p.bytes.zip p.mask).map (fun bm => if bm.2 = true then bm.1 else 0) := by
    rw [List.map_map]
    rfl
  have hsnd :
      ((p.bytes.zip p.mask).map (fun bm => (if bm.2 = true then bm.1 else 0, bm.2))).map
          Prod.snd
        = p.mask := by
    rw [List.map_map]
    have hcomp :
        (Prod.snd ∘ fun bm : Nat × Bool => (if bm.2 = true then bm.1 else 0, bm.2))
          = Prod.snd := by
      funext bm; rfl
    rw [hcomp]
    exact List.map_snd_zip p.bytes p.mask (le_of_eq hlen.symm)
  simp [hie, hfst, hsnd]

/-- Witness for C4 (amended) at the pattern `48 ??` built with wildcard byte
already 0: the round trip reproduces it exactly. -/
theorem parse_toString_roundTrip_witness :
    parsePatternString (Pattern.toString ⟨[0x48, 0], [true, false], ""⟩) =
      some ⟨[0x48, 0], [true, false], ""⟩ :=
  parse_toString_roundTrip ⟨[0x48, 0], [true, false], ""⟩ (by decide)

theorem parseTok_isSome (t : List Char) : (parseTok t).isSome = tokenAccepted t := by
  unfold parseTok tokenAccepted
  by_cases h : t = ['?', '?']
  · simp [h]
  · simp [h]

theorem parseTokens_isSome (ts : List (List Char)) :
    (parseTokens ts).isSome = true ↔ ∀ t ∈ ts, tokenAccepted t = true := by
  induction ts with
  | nil => simp [parseTokens]
  | cons t ts ih =>
    have ht := parseTok_isSome t
    cases h1 : parseTok t with
    | none =>
      rw [h1] at ht
      cases h2 : parseTokens ts with
      | none =>
        simp only [parseTokens, h1, h2]
        constructor
        · intro hcon; exact absurd hcon (by simp)
        · intro hall
          have hat := hall t (by simp)
          rw [← ht] at hat
          exact absurd hat (by simp)
      | some ps =>
        simp only [parseTokens, h1, h2]
        constructor
        · intro hcon; exact absurd hcon (by simp)
        · intro hall
          have hat := hall t (by simp)
          rw [← ht] at hat
          exact absurd hat (by simp)
    | some pr =>
      rw [h1] at ht
      have hta : tokenAccepted t = true := by rw [← ht]; rfl
      cases h2 : parseTokens ts with
      | none =>
        simp only [parseTokens, h1, h2]
        constructor
        · intro hcon; exact absurd hcon (by simp)
        · intro hall
          have h3 := ih.mpr (fun x hx => hall x (List.mem_cons_of_mem _ hx))
          rw [h2] at h3
          exact absurd h3 (by simp)
      | some ps =>
        simp only [parseTokens, h1, h2]
        have htail := ih.mp (by rw [h2]; rfl)
        constructor
        · intro _ x hx
          rcases List.mem_cons.mp hx with rfl | hx2
          · exact hta
          · exact htail x hx2
        · intro _; rfl

theorem parseTokens_length (ts : List (List Char)) (l : List (Nat × Bool))
    (h : parseTokens ts = some l) : l.length = ts.length := by
  induction ts generalizing l with
  | nil =>
    simp only [parseTokens, Option.some_inj] at h
    rw [← h]
    rfl
  | cons t ts ih =>
    simp only [parseTokens] at h
    cases h1 : parseTok t with
    | none =>
      rw [h1] at h
      cases h2 : parseTokens ts <;> rw [h2] at h <;> simp at h
    | some pr =>
      rw [h1] at h
      cases h2 : parseTokens ts with
      | none => rw [h2] at h; simp at h
      | some ps =>
        rw [h2] at h
        simp only [Option.some_inj] at h
        rw [← h, List.length_cons, List.length_cons, ih ps h2]

/-- C3 counterexample: the one-token string `"1"` is outside the grammar
(`1` is neither two hexadecimal digits nor the wildcard marker), yet the
parser accepts it (`std::stoul` converts any token with at least one leading
hexadecimal digit) — refuting "every string containing a token outside the
grammar is rejected". -/
theorem parse_grammar_counterexample :
    (parsePatternString ['1']).isSome = true ∧ splitWs ['1'] = [['1']] ∧
    grammarToken ['1'] = false := by
  refine ⟨by decide, by decide, by decide⟩

/-- C3 (amended): parsing fails exactly when the string has no token or some
token is neither `??` nor convertible by `std::stoul(·, nullptr, 16)`
(no leading hexadecimal digit after the optional sign and `0x` prefix, or a
value above `ULONG_MAX`); every token of the grammar `[0-9A-Fa-f]{2} | ??`
is convertible, so all grammar-conforming strings still parse, but the
converse direction of the claim fails (see the counterexample). -/
theorem parse_accepts_iff :
    (∀ s : List Char, (parsePatternString s).isSome = true ↔
      (splitWs s ≠ [] ∧ ∀ t ∈ splitWs s, tokenAccepted t = true)) ∧
    (∀ t : List Char, grammarToken t = true → tokenAccepted t = true) := by
  constructor
  · intro s
    unfold parsePatternString
    cases hpt : parseTokens (splitWs s) with
    | none =>
      constructor
      · intro hcon; simp at hcon
      · rintro ⟨h1, h2⟩
        have hs : (parseTokens (splitWs s)).isSome = true :=
          (parseTokens_isSome _).mpr h2
        rw [hpt] at hs
        exact absurd hs (by simp)
    | some l =>
      dsimp only
      by_cases hl : l = []
      · subst hl
        simp only [List.isEmpty_nil]
        rw [if_pos trivial]
        constructor
        · intro hcon; exact absurd hcon (by simp)
        · rintro ⟨h1, h2⟩
          have hlen := parseTokens_length _ _ hpt
          simp only [List.length_nil] at hlen
          exact absurd (List.length_eq_zero.mp hlen.symm) h1
      · have hbe : ¬ (l.isEmpty = true) := by
          rw [List.isEmpty_iff]; exact hl
        rw [if_neg hbe]
        constructor
        · intro _
          refine ⟨?_, (parseTokens_isSome _).mp (by rw [hpt]; rfl)⟩
          intro hcon
          rw [hcon] at hpt
          simp only [parseTokens, Option.some_inj] at hpt
          exact hl hpt.symm
        · intro _; rfl
  · intro t hg
    unfold grammarToken at hg
    rw [Bool.or_eq_true] at hg
    rcases hg with h1 | h2
    · unfold tokenAccepted
      rw [h1]
      rfl
    · rw [Bool.and_eq_true] at h2
      obtain ⟨hlen2, hall⟩ := h2
      have hlen2' : t.length = 2 := by simpa using hlen2
      rcases List.length_eq_two.mp hlen2' with ⟨c1, c2, rfl⟩
      have hh1 : isHexDigit c1 = true := by
        have := List.all_eq_true.mp hall c1 (by simp)
        simpa using this
      have hh2 : isHexDigit c2 = true := by
        have := List.all_eq_true.mp hall c2 (by simp)
        simpa using this
      unfold tokenAccepted
      rw [stoulHex_pair c1 c2 hh1 hh2]
      simp

/-- Witness for C3 (amended): the grammar token `48` is accepted, and the
string `"48 ??"` parses. -/
theorem parse_accepts_iff_witness :
    tokenAccepted ['4', '8'] = true ∧
    (parsePatternString ['4', '8', ' ', '?', '?']).isSome = true :=
  ⟨parse_accepts_iff.2 ['4', '8'] (by decide),
   (parse_accepts_iff.1 ['4', '8', ' ', '?', '?']).mpr ⟨by decide, by decide⟩⟩

/-! ## Hook lifecycle (src/hooks/MinHookWrapper.cpp)

The mock engine's global state (`s_initialized`, `s_hooks`) becomes an
explicit `MHState` threaded through the operations; `s_lastError` is a
write-only diagnostic and is not modelled.  Each operation returns the pair
(status, new state), plus the `original` out-parameter for `createHook`
(written only on success).  `Reachable` closes the initial state under all
state-mutating operations of `MinHookWrapper`. -/

/-- Embeds `enum class MHStatus`. -/
inductive MHStatus
  | MH_OK
  | MH_ERROR_ALREADY_INITIALIZED
  | MH_ERROR_NOT_INITIALIZED
  | MH_ERROR_ALREADY_CREATED
  | MH_ERROR_NOT_CREATED
  | MH_ERROR_ENABLED
  | MH_ERROR_DISABLED
  | MH_ERROR_NOT_EXECUTABLE
  | MH_ERROR_UNSUPPORTED_FUNCTION
  | MH_ERROR_MEMORY_ALLOC
  | MH_ERROR_MEMORY_PROTECT
  | MH_ERROR_MODULE_NOT_FOUND
  | MH_ERROR_FUNCTION_NOT_FOUND
deriving DecidableEq

/-- Embeds `enum class HookType`. -/
inductive HookType
  | HOOK_JMP
  | HOOK_CALL
  | HOOK_VTABLE
deriving DecidableEq

/-- Embeds `struct HookInfo`. -/
structure HookInfo where
  name : String
  targetAddress : Nat
  hookFunction : Nat
  originalFunction : Nat
  type : HookType
  enabled : Bool
deriving DecidableEq

/-- The global mutable state of `MinHookWrapper`: `inited` models
`s_initialized`, `s_hooks` the `std::vector<HookInfo> s_hooks`. -/
structure MHState where
  inited : Bool
  s_hooks : List HookInfo
deriving DecidableEq

/-- Lookup via `std::find_if` over the hook vector: the first record whose
`targetAddress` equals `target`. -/
def findHook (l : List HookInfo) (target : Nat) : Option HookInfo :=
  l.find? (fun h => h.targetAddress == target)

/-- In-place mutation through the iterator `std::find_if` returned: apply
`f` to the first record with the given target. -/
def updateFirst (l : List HookInfo) (target : Nat) (f : HookInfo → HookInfo) :
    List HookInfo :=
  match l with
  | [] => []
  | h :: t => if h.targetAddress == target then f h :: t else h :: updateFirst t target f

/-- Erasure `s_hooks.erase(it)` for the iterator `std::find_if` returned: drop the
first record with the given target. -/
def eraseFirst (l : List HookInfo) (target : Nat) : List HookInfo :=
  match l with
  | [] => []
  | h :: t => if h.targetAddress == target then t else h :: eraseFirst t target

/-- Embeds `MinHookWrapper::initialize`. -/
def initEngine (s : MHState) : MHStatus × MHState :=
  if s.inited then (MHStatus.MH_ERROR_ALREADY_INITIALIZED, s)
  else (MHStatus.MH_OK, { s with inited := true })

/-- Embeds `MinHookWrapper::uninitialize`: the loop disabling enabled hooks
mutates entries of `s_hooks` in place and `s_hooks.clear()` then discards
them all, so the net table is empty. -/
def uninitEngine (s : MHState) : MHStatus × MHState :=
  if !s.inited then (MHStatus.MH_ERROR_NOT_INITIALIZED, s)
  else (MHStatus.MH_OK, { inited := false, s_hooks := [] })

/-- Embeds `MinHookWrapper::createHook`: the mock records
`originalFunction = targetAddr` and appends (`push_back`); the `original`
out-parameter (third component) is written only on the success path. -/
def createHook (s : MHState) (target hook : Nat) : MHStatus × MHState × Option Nat :=
  if !s.inited then (MHStatus.MH_ERROR_NOT_INITIALIZED, s, none)
  else if (findHook s.s_hooks target).isSome then
    (MHStatus.MH_ERROR_ALREADY_CREATED, s, none)
  else
    (MHStatus.MH_OK,
     { s with s_hooks := s.s_hooks ++
        [{ name := "", targetAddress := target, hookFunction := hook,
           originalFunction := target, type := HookType.HOOK_JMP, enabled := false }] },
     some target)

/-- Embeds `MinHookWrapper::enableHook`. -/
def enableHook (s : MHState) (target : Nat) : MHStatus × MHState :=
  if !s.inited then (MHStatus.MH_ERROR_NOT_INITIALIZED, s)
  else
    match findHook s.s_hooks target with
    | none => (MHStatus.MH_ERROR_NOT_CREATED, s)
    | some h =>
      if h.enabled then (MHStatus.MH_ERROR_ENABLED, s)
      else (MHStatus.MH_OK,
        { s with s_hooks := updateFirst s.s_hooks target (fun x => { x with enabled := true }) })

/-- Embeds `MinHookWrapper::disableHook`. -/
def disableHook (s : MHState) (target : Nat) : MHStatus × MHState :=
  if !s.inited then (MHStatus.MH_ERROR_NOT_INITIALIZED, s)
  else
    match findHook s.s_hooks target with
    | none => (MHStatus.MH_ERROR_NOT_CREATED, s)
    | some h =>
      if !h.enabled then (MHStatus.MH_ERROR_DISABLED, s)
      else (MHStatus.MH_OK,
        { s with s_hooks := updateFirst s.s_hooks target (fun x => { x with enabled := false }) })

/-- Embeds `MinHookWrapper::removeHook`: an enabled record is first disabled
through `disableHook`, then the record is erased. -/
def removeHook (s : MHState) (target : Nat) : MHStatus × MHState :=
  if !s.inited then (MHStatus.MH_ERROR_NOT_INITIALIZED, s)
  else
    match findHook s.s_hooks target with
    | none => (MHStatus.MH_ERROR_NOT_CREATED, s)
    | some h =>
      (MHStatus.MH_OK,
       { (if h.enabled then (disableHook s target).2 else s) with
          s_hooks := eraseFirst
            (if h.enabled then (disableHook s target).2 else s).s_hooks target })

/-- Embeds `class FunctionHook` (its member fields). -/
structure FunctionHook where
  m_name : String
  m_targetAddress : Nat
  m_hookFunction : Nat
  m_originalFunction : Nat
  m_type : HookType
  m_installed : Bool
  m_enabled : Bool
deriving DecidableEq

/-- Embeds `FunctionHook::install`: already installed returns true
unchanged; otherwise delegates to `createHook`, and only on `MH_OK` sets
`m_installed` and stores the out-parameter into `m_originalFunction`. -/
def FunctionHook.install (fh : FunctionHook) (s : MHState) :
    Bool × FunctionHook × MHState :=
  if fh.m_installed then (true, fh, s)
  else
    if (createHook s fh.m_targetAddress fh.m_hookFunction).1 = MHStatus.MH_OK then
      (true,
       { fh with m_installed := true,
                 m_originalFunction :=
                   ((createHook s fh.m_targetAddress fh.m_hookFunction).2.2).getD
                     fh.m_originalFunction },
       (createHook s fh.m_targetAddress fh.m_hookFunction).2.1)
    else (false, fh, (createHook s fh.m_targetAddress fh.m_hookFunction).2.1)

/-- Embeds `FunctionHook::disable`. -/
def FunctionHook.disable (fh : FunctionHook) (s : MHState) :
    Bool × FunctionHook × MHState :=
  if !fh.m_installed || !fh.m_enabled then (true, fh, s)
  else
    if (disableHook s fh.m_targetAddress).1 = MHStatus.MH_OK then
      (true, { fh with m_enabled := false }, (disableHook s fh.m_targetAddress).2)
    else (false, fh, (disableHook s fh.m_targetAddress).2)

/-- Embeds `FunctionHook::enable`. -/
def FunctionHook.enable (fh : FunctionHook) (s : MHState) :
    Bool × FunctionHook × MHState :=
  if !fh.m_installed then (false, fh, s)
  else if fh.m_enabled then (true, fh, s)
  else
    if (enableHook s fh.m_targetAddress).1 = MHStatus.MH_OK then
      (true, { fh with m_enabled := true }, (enableHook s fh.m_targetAddress).2)
    else (false, fh, (enableHook s fh.m_targetAddress).2)

/-- The tail of `FunctionHook::remove` after the optional internal
`disable()`: the `MinHookWrapper::removeHook` call and the field updates on
its success. -/
def removeFinish : Bool × FunctionHook × MHState → Bool × FunctionHook × MHState
  | (_, fh1, s1) =>
    if (removeHook s1 fh1.m_targetAddress).1 = MHStatus.MH_OK then
      (true, { fh1 with m_installed := false, m_originalFunction := 0 },
       (removeHook s1 fh1.m_targetAddress).2)
    else (false, fh1, (removeHook s1 fh1.m_targetAddress).2)

/-- Embeds `FunctionHook::remove`: not installed returns true unchanged;
an enabled hook is first disabled (`if (m_enabled) disable();`), then
`removeHook` runs. -/
def FunctionHook.remove (fh : FunctionHook) (s : MHState) :
    Bool × FunctionHook × MHState :=
  if !fh.m_installed then (true, fh, s)
  else removeFinish (if fh.m_enabled then FunctionHook.disable fh s else (true, fh, s))

/-- Embeds the destructor `FunctionHook::~FunctionHook`: forces `remove`
while still installed.  Result is the hook-table state after teardown. -/
def FunctionHook.dtor (fh : FunctionHook) (s : MHState) : MHState :=
  if fh.m_installed then (FunctionHook.remove fh s).2.2 else s

/-- The states the global hook table can reach: the initial state
(`s_initialized = false`, empty vector) closed under every state-mutating
operation of `MinHookWrapper`. -/
inductive Reachable : MHState → Prop
  | start : Reachable ⟨false, []⟩
  | step_init (s : MHState) : Reachable s → Reachable (initEngine s).2
  | step_uninit (s : MHState) : Reachable s → Reachable (uninitEngine s).2
  | step_create (s : MHState) (t hk : Nat) : Reachable s → Reachable (createHook s t hk).2.1
  | step_enable (s : MHState) (t : Nat) : Reachable s → Reachable (enableHook s t).2
  | step_disable (s : MHState) (t : Nat) : Reachable s → Reachable (disableHook s t).2
  | step_remove (s : MHState) (t : Nat) : Reachable s → Reachable (removeHook s t).2

/-- The target addresses of the table's records, in order. -/
def targetsOf (l : List HookInfo) : List Nat := l.map (fun h => h.targetAddress)

/-- How many records for a target address a state holds. -/
def countTarget (s : MHState) (target : Nat) : Nat :=
  (s.s_hooks.filter (fun h => h.targetAddress == target)).length

theorem targetsOf_updateFirst (l : List HookInfo) (t : Nat) (f : HookInfo → HookInfo)
    (hf : ∀ h, (f h).targetAddress = h.targetAddress) :
    targetsOf (updateFirst l t f) = targetsOf l := by
  induction l with
  | nil => rfl
  | cons h l ih =>
    unfold updateFirst
    by_cases hc : (h.targetAddress == t) = true
    · rw [if_pos hc]
      simp [targetsOf, hf]
    · rw [if_neg hc]
      exact congrArg (fun z => h.targetAddress :: z) ih

theorem eraseFirst_sublist (l : List HookInfo) (t : Nat) :
    (eraseFirst l t).Sublist l := by
  induction l with
  | nil => simp [eraseFirst]
  | cons h l ih =>
    unfold eraseFirst
    by_cases hc : (h.targetAddress == t) = true
    · rw [if_pos hc]
      exact List.sublist_cons_self h l
    · rw [if_neg hc]
      exact List.Sublist.cons₂ h ih

theorem findHook_isSome_iff (l : List HookInfo) (t : Nat) :
    (findHook l t).isSome = true ↔ t ∈ targetsOf l := by
  unfold findHook targetsOf
  rw [List.find?_isSome]
  constructor
  · rintro ⟨x, hx, hbeq⟩
    exact List.mem_map.mpr ⟨x, hx, by simpa using hbeq⟩
  · intro hmem
    rcases List.mem_map.mp hmem with ⟨x, hx, hxe⟩
    exact ⟨x, hx, by simp [hxe]⟩

theorem filter_target_eq_nil (l : List HookInfo) (t : Nat) (h : t ∉ targetsOf l) :
    l.filter (fun x => x.targetAddress == t) = [] := by
  induction l with
  | nil => rfl
  | cons x l ih =>
    simp only [targetsOf, List.map_cons, List.mem_cons] at h
    push_neg at h
    obtain ⟨h1, h2⟩ := h
    have hx : (x.targetAddress == t) = false := by
      simp
      exact fun he => h1 he.symm
    rw [List.filter_cons_of_neg (by simp [hx])]
    exact ih h2

theorem filter_eraseFirst_eq_nil (l : List HookInfo) (t : Nat)
    (hnd : (targetsOf l).Nodup) :
    (eraseFirst l t).filter (fun x => x.targetAddress == t) = [] := by
  induction l with
  | nil => rfl
  | cons x l ih =>
    have hnd2 : x.targetAddress ∉ targetsOf l ∧ (targetsOf l).Nodup := by
      simpa [targetsOf] using hnd
    unfold eraseFirst
    by_cases hc : (x.targetAddress == t) = true
    · rw [if_pos hc]
      have hxt : x.targetAddress = t := by simpa using hc
      exact filter_target_eq_nil l t (hxt ▸ hnd2.1)
    · rw [if_neg hc]
      rw [List.filter_cons_of_neg (by simp [hc])]
      exact ih hnd2.2

theorem createHook_not_inited (s : MHState) (t hk : Nat) (h : s.inited = false) :
    createHook s t hk = (MHStatus.MH_ERROR_NOT_INITIALIZED, s, none) := by
  simp [createHook, h]

theorem enableHook_not_inited (s : MHState) (t : Nat) (h : s.inited = false) :
    enableHook s t = (MHStatus.MH_ERROR_NOT_INITIALIZED, s) := by
  simp [enableHook, h]

theorem disableHook_not_inited (s : MHState) (t : Nat) (h : s.inited = false) :
    disableHook s t = (MHStatus.MH_ERROR_NOT_INITIALIZED, s) := by
  simp [disableHook, h]

theorem removeHook_not_inited (s : MHState) (t : Nat) (h : s.inited = false) :
    removeHook s t = (MHStatus.MH_ERROR_NOT_INITIALIZED, s) := by
  simp [removeHook, h]

theorem enableHook_state (s : MHState) (t : Nat) :
    targetsOf (enableHook s t).2.s_hooks = targetsOf s.s_hooks ∧
    (enableHook s t).2.inited = s.inited := by
  unfold enableHook
  split
  · exact ⟨rfl, rfl⟩
  · split
    · exact ⟨rfl, rfl⟩
    · split
      · exact ⟨rfl, rfl⟩
      · exact ⟨targetsOf_updateFirst _ _ _ (fun x => rfl), rfl⟩

theorem disableHook_state (s : MHState) (t : Nat) :
    targetsOf (disableHook s t).2.s_hooks = targetsOf s.s_hooks ∧
    (disableHook s t).2.inited = s.inited := by
  unfold disableHook
  split
  · exact ⟨rfl, rfl⟩
  · split
    · exact ⟨rfl, rfl⟩
    · split
      · exact ⟨rfl, rfl⟩
      · exact ⟨targetsOf_updateFirst _ _ _ (fun x => rfl), rfl⟩

theorem removeHook_state (s : MHState) (t : Nat) :
    ((removeHook s t).2 = s ∧ (removeHook s t).1 ≠ MHStatus.MH_OK) ∨
    (∃ h, findHook s.s_hooks t = some h ∧ s.inited = true ∧
      (removeHook s t).1 = MHStatus.MH_OK ∧
      (removeHook s t).2.s_hooks =
        eraseFirst (if h.enabled then (disableHook s t).2 else s).s_hooks t ∧
      targetsOf (if h.enabled then (disableHook s t).2 else s).s_hooks =
        targetsOf s.s_hooks) := by
  unfold removeHook
  split
  · left
    refine ⟨rfl, by intro hcon; exact MHStatus.noConfusion hcon⟩
  · rename_i hni
    have hi : s.inited = true := by
      cases hb : s.inited
      · rw [hb] at hni; exact absurd rfl hni
      · rfl
    split
    · left
      refine ⟨rfl, by intro hcon; exact MHStatus.noConfusion hcon⟩
    · rename_i h heq
      right
      refine ⟨h, heq, hi, rfl, rfl, ?_⟩
      by_cases he : h.enabled = true
      · rw [if_pos he]
        exact (disableHook_state s t).1
      · rw [if_neg he]

theorem removeHook_inited (s : MHState) (t : Nat) :
    (removeHook s t).2.inited = s.inited := by
  unfold removeHook
  split
  · rfl
  · split
    · rfl
    · dsimp only
      split
      · exact (disableHook_state s t).2
      · rfl

theorem targetsOf_append_single (l : List HookInfo) (x : HookInfo) :
    targetsOf (l ++ [x]) = targetsOf l ++ [x.targetAddress] := by
  simp [targetsOf]

theorem reachable_not_inited_no_hooks (s : MHState) (h : Reachable s) :
    s.inited = false → s.s_hooks = [] := by
  induction h with
  | start => intro; rfl
  | step_init s hr ih =>
    unfold initEngine
    split
    · exact ih
    · intro hcon
      simp at hcon
  | step_uninit s hr ih =>
    unfold uninitEngine
    split
    · exact ih
    · intro; rfl
  | step_create s t hk hr ih =>
    unfold createHook
    split
    · exact ih
    · rename_i hni
      have hi : s.inited = true := by
        cases hb : s.inited
        · rw [hb] at hni; exact absurd rfl hni
        · rfl
      split
      · exact ih
      · intro hcon
        simp [hi] at hcon
  | step_enable s t hr ih =>
    intro hcon
    have hst := enableHook_state s t
    rw [hst.2] at hcon
    have hnil := ih hcon
    have h2 := hst.1
    rw [hnil] at h2
    unfold targetsOf at h2
    simp only [List.map_nil] at h2
    rw [List.map_eq_nil_iff] at h2
    exact h2
  | step_disable s t hr ih =>
    intro hcon
    have hst := disableHook_state s t
    rw [hst.2] at hcon
    have hnil := ih hcon
    have h2 := hst.1
    rw [hnil] at h2
    unfold targetsOf at h2
    simp only [List.map_nil] at h2
    rw [List.map_eq_nil_iff] at h2
    exact h2
  | step_remove s t hr ih =>
    intro hcon
    rw [removeHook_inited s t] at hcon
    rcases removeHook_state s t with ⟨heq, _⟩ | ⟨h2, _, hi, _, _, _⟩
    · rw [heq]
      exact ih hcon
    · rw [hi] at hcon
      exact absurd hcon (by simp)

theorem reachable_nodup (s : MHState) (h : Reachable s) :
    (targetsOf s.s_hooks).Nodup := by
  induction h with
  | start => simp [targetsOf]
  | step_init s hr ih =>
    unfold initEngine
    split
    · exact ih
    · exact ih
  | step_uninit s hr ih =>
    unfold uninitEngine
    split
    · exact ih
    · simp [targetsOf]
  | step_create s t hk hr ih =>
    unfold createHook
    split
    · exact ih
    · split
      · exact ih
      · rename_i hni hf
        have hnm : t ∉ targetsOf s.s_hooks := by
          intro hmem
          exact hf ((findHook_isSome_iff s.s_hooks t).mpr hmem)
        dsimp only
        rw [targetsOf_append_single]
        refine List.nodup_append.mpr ⟨ih, by simp, ?_⟩
        intro a ha hb
        rw [List.mem_singleton] at hb
        subst hb
        exact hnm ha
  | step_enable s t hr ih =>
    rw [(enableHook_state s t).1]
    exact ih
  | step_disable s t hr ih =>
    rw [(disableHook_state s t).1]
    exact ih
  | step_remove s t hr ih =>
    rcases removeHook_state s t with ⟨heq, _⟩ | ⟨h2, hf, hi, _, hhooks, htg⟩
    · rw [heq]
      exact ih
    · rw [hhooks]
      have hnd1 :
          (targetsOf (if h2.enabled = true then (disableHook s t).2 else s).s_hooks).Nodup := by
        rw [htg]
        exact ih
      exact hnd1.sublist (List.Sublist.map _ (eraseFirst_sublist _ _))

theorem reachable_hooks_inited (s : MHState) (h : Reachable s)
    (hne : s.s_hooks ≠ []) : s.inited = true := by
  cases hi : s.inited
  · exact absurd (reachable_not_inited_no_hooks s h hi) hne
  · rfl

/-- C5: in every reachable state the hook table has at most one record per
target address (the target lists are duplicate-free), and `createHook` on a
target that already has a record returns `MH_ERROR_ALREADY_CREATED` and
leaves the state — in particular the existing record and its hook routine —
entirely unchanged. -/
theorem hook_table_unique_per_target (s : MHState) (hs : Reachable s) :
    (targetsOf s.s_hooks).Nodup ∧
    ∀ t hk, (findHook s.s_hooks t).isSome = true →
      createHook s t hk = (MHStatus.MH_ERROR_ALREADY_CREATED, s, none) := by
  refine ⟨reachable_nodup s hs, ?_⟩
  intro t hk hf
  have hne : s.s_hooks ≠ [] := by
    intro hcon
    rw [hcon] at hf
    simp [findHook] at hf
  have hi := reachable_hooks_inited s hs hne
  unfold createHook
  rw [hi]
  simp only [Bool.not_true, Bool.false_eq_true, if_false]
  rw [if_pos hf]

/-- C6: `enableHook` on a target whose record is already enabled fails with
`MH_ERROR_ENABLED` (the AlreadyEnabled status) and returns the state
unchanged, in every reachable state. -/
theorem enable_on_enabled_fails (s : MHState) (t : Nat) (h : HookInfo)
    (hs : Reachable s) (hf : findHook s.s_hooks t = some h)
    (he : h.enabled = true) :
    enableHook s t = (MHStatus.MH_ERROR_ENABLED, s) := by
  have hne : s.s_hooks ≠ [] := by
    intro hcon
    rw [hcon] at hf
    simp [findHook] at hf
  have hi := reachable_hooks_inited s hs hne
  unfold enableHook
  rw [hi]
  simp only [Bool.not_true, Bool.false_eq_true, if_false]
  rw [hf]
  dsimp only
  rw [if_pos he]

/-- C10: with the engine uninitialized, `createHook`, `enableHook`,
`disableHook` and `removeHook` all return `MH_ERROR_NOT_INITIALIZED` and
leave the state (the hook table in particular) unchanged. -/
theorem not_inited_ops_fail (s : MHState) (t hk : Nat) (h : s.inited = false) :
    createHook s t hk = (MHStatus.MH_ERROR_NOT_INITIALIZED, s, none) ∧
    enableHook s t = (MHStatus.MH_ERROR_NOT_INITIALIZED, s) ∧
    disableHook s t = (MHStatus.MH_ERROR_NOT_INITIALIZED, s) ∧
    removeHook s t = (MHStatus.MH_ERROR_NOT_INITIALIZED, s) :=
  ⟨createHook_not_inited s t hk h, enableHook_not_inited s t h,
   disableHook_not_inited s t h, removeHook_not_inited s t h⟩

/-- Witness for C10 at the initial (never-initialized) state. -/
theorem not_inited_ops_fail_witness :
    createHook ⟨false, []⟩ 0x400000 0x401000 =
      (MHStatus.MH_ERROR_NOT_INITIALIZED, ⟨false, []⟩, none) ∧
    enableHook ⟨false, []⟩ 0x400000 = (MHStatus.MH_ERROR_NOT_INITIALIZED, ⟨false, []⟩) ∧
    disableHook ⟨false, []⟩ 0x400000 = (MHStatus.MH_ERROR_NOT_INITIALIZED, ⟨false, []⟩) ∧
    removeHook ⟨false, []⟩ 0x400000 = (MHStatus.MH_ERROR_NOT_INITIALIZED, ⟨false, []⟩) :=
  not_inited_ops_fail ⟨false, []⟩ 0x400000 0x401000 rfl

theorem createHook_fail_state (s : MHState) (t hk : Nat)
    (h : (createHook s t hk).1 ≠ MHStatus.MH_OK) :
    (createHook s t hk).2 = (s, none) := by
  by_cases hi : s.inited = true
  · by_cases hf : (findHook s.s_hooks t).isSome = true
    · unfold createHook
      rw [hi]
      simp only [Bool.not_true, Bool.false_eq_true, if_false]
      rw [if_pos hf]
    · exfalso
      apply h
      unfold createHook
      rw [hi]
      simp only [Bool.not_true, Bool.false_eq_true, if_false]
      rw [if_neg hf]
  · have hni : s.inited = false := by
      cases hb : s.inited
      · rfl
      · exact absurd hb hi
    rw [createHook_not_inited s t hk hni]

/-- C8: `FunctionHook::install` is transactional — whenever the engine call
(`createHook`) reports any non-`MH_OK` status, `install` returns false with
the `FunctionHook` fields and the hook table exactly as before (no record is
created, `m_installed` stays false). -/
theorem install_transactional (fh : FunctionHook) (s : MHState)
    (hni : fh.m_installed = false)
    (hfail : (createHook s fh.m_targetAddress fh.m_hookFunction).1 ≠ MHStatus.MH_OK) :
    FunctionHook.install fh s = (false, fh, s) := by
  unfold FunctionHook.install
  rw [hni]
  simp only [Bool.false_eq_true, if_false]
  rw [if_neg hfail]
  rw [show (createHook s fh.m_targetAddress fh.m_hookFunction).2.1 = s from
    congrArg Prod.fst (createHook_fail_state s fh.m_targetAddress fh.m_hookFunction hfail)]

/-- A `FunctionHook` that never installed, over the uninitialized engine. -/
def demoFH0 : FunctionHook :=
  ⟨"", 0x400000, 0x401000, 0, HookType.HOOK_JMP, false, false⟩

/-- Witness for C8: install over the uninitialized engine fails
(`MH_ERROR_NOT_INITIALIZED` from the engine) and changes nothing. -/
theorem install_transactional_witness :
    FunctionHook.install demoFH0 ⟨false, []⟩ = (false, demoFH0, ⟨false, []⟩) :=
  install_transactional demoFH0 ⟨false, []⟩ rfl (by decide)

theorem countTarget_zero_of_not_mem (s : MHState) (t : Nat)
    (h : t ∉ targetsOf s.s_hooks) : countTarget s t = 0 := by
  unfold countTarget
  rw [filter_target_eq_nil _ _ h]
  rfl

theorem removeHook_count_zero (s : MHState) (t : Nat) (hs : Reachable s) :
    countTarget (removeHook s t).2 t = 0 := by
  unfold removeHook
  split
  · rename_i hni
    have hnil := reachable_not_inited_no_hooks s hs (by
      cases hb : s.inited
      · rfl
      · rw [hb] at hni; exact absurd hni (by simp))
    simp [countTarget, hnil]
  · split
    · rename_i hf
      apply countTarget_zero_of_not_mem
      intro hmem
      have hsome := (findHook_isSome_iff s.s_hooks t).mpr hmem
      rw [hf] at hsome
      exact absurd hsome (by simp)
    · rename_i h hf
      dsimp only [countTarget]
      rw [filter_eraseFirst_eq_nil]
      · rfl
      · split
        · rw [(disableHook_state s t).1]
          exact reachable_nodup s hs
        · exact reachable_nodup s hs

theorem removeFinish_state (x : Bool × FunctionHook × MHState) :
    (removeFinish x).2.2 = (removeHook x.2.2 x.2.1.m_targetAddress).2 := by
  obtain ⟨b, fh1, s1⟩ := x
  show (removeFinish (b, fh1, s1)).2.2 = (removeHook s1 fh1.m_targetAddress).2
  unfold removeFinish
  dsimp only
  split
  · rfl
  · rfl

theorem FunctionHook.disable_fields (fh : FunctionHook) (s : MHState) :
    (FunctionHook.disable fh s).2.1.m_targetAddress = fh.m_targetAddress ∧
    ((FunctionHook.disable fh s).2.2 = s ∨
     (FunctionHook.disable fh s).2.2 = (disableHook s fh.m_targetAddress).2) := by
  unfold FunctionHook.disable
  split
  · exact ⟨rfl, Or.inl rfl⟩
  · split
    · exact ⟨rfl, Or.inr rfl⟩
    · exact ⟨rfl, Or.inr rfl⟩

/-- C7: `removeHook` on an existing record succeeds with `MH_OK` whether or
not the record is enabled (an enabled record is disabled internally first),
leaving zero records for the target; and the `FunctionHook` destructor on a
still-installed hook forces removal, leaving zero records for its target in
every reachable state. -/
theorem remove_implicit_disable_and_teardown (s : MHState) (fh : FunctionHook)
    (hs : Reachable s) :
    (∀ t h, findHook s.s_hooks t = some h →
      (removeHook s t).1 = MHStatus.MH_OK ∧ countTarget (removeHook s t).2 t = 0) ∧
    (fh.m_installed = true →
      countTarget (FunctionHook.dtor fh s) fh.m_targetAddress = 0) := by
  constructor
  · intro t h hf
    refine ⟨?_, removeHook_count_zero s t hs⟩
    have hne : s.s_hooks ≠ [] := by
      intro hcon
      rw [hcon] at hf
      simp [findHook] at hf
    have hi := reachable_hooks_inited s hs hne
    unfold removeHook
    rw [hi]
    simp only [Bool.not_true, Bool.false_eq_true, if_false]
    rw [hf]
  · intro hin
    unfold FunctionHook.dtor
    rw [hin]
    rw [if_pos rfl]
    unfold FunctionHook.remove
    rw [hin]
    simp only [Bool.not_true, Bool.false_eq_true, if_false]
    rw [removeFinish_state]
    by_cases he : fh.m_enabled = true
    · rw [if_pos he]
      obtain ⟨htg, hst⟩ := FunctionHook.disable_fields fh s
      rw [htg]
      rcases hst with h1 | h1 <;> rw [h1]
      · exact removeHook_count_zero s fh.m_targetAddress hs
      · exact removeHook_count_zero _ fh.m_targetAddress
          (Reachable.step_disable s fh.m_targetAddress hs)
    · rw [if_neg he]
      exact removeHook_count_zero s fh.m_targetAddress hs

/-- Demonstration states: engine initialized, a hook installed at 0x400000
with routine 0x401000 (spec scenario 4), then enabled (spec scenario 5). -/
def demoS1 : MHState := (initEngine ⟨false, []⟩).2

def demoS2 : MHState := (createHook demoS1 0x400000 0x401000).2.1

def demoS3 : MHState := (enableHook demoS2 0x400000).2

theorem demoS2_reachable : Reachable demoS2 :=
  Reachable.step_create demoS1 0x400000 0x401000
    (Reachable.step_init ⟨false, []⟩ Reachable.start)

theorem demoS3_reachable : Reachable demoS3 :=
  Reachable.step_enable demoS2 0x400000 demoS2_reachable

/-- Witness for C5 at spec scenario 4: a second install on 0x400000 returns
AlreadyCreated and leaves the table (hookRoutine 0x401000 included)
unchanged. -/
theorem hook_table_unique_per_target_witness :
    createHook demoS2 0x400000 0x402000 =
      (MHStatus.MH_ERROR_ALREADY_CREATED, demoS2, none) ∧
    (targetsOf demoS2.s_hooks).Nodup :=
  ⟨(hook_table_unique_per_target demoS2 demoS2_reachable).2 0x400000 0x402000
      (by decide),
   (hook_table_unique_per_target demoS2 demoS2_reachable).1⟩

/-- The record at 0x400000 after install and enable. -/
def demoRecEnabled : HookInfo :=
  ⟨"", 0x400000, 0x401000, 0x400000, HookType.HOOK_JMP, true⟩

/-- Witness for C6 at spec scenario 5: enable twice — the second enable
returns AlreadyEnabled with the state unchanged. -/
theorem enable_on_enabled_fails_witness :
    enableHook demoS3 0x400000 = (MHStatus.MH_ERROR_ENABLED, demoS3) :=
  enable_on_enabled_fails demoS3 0x400000 demoRecEnabled demoS3_reachable
    (by decide) rfl

/-- A `FunctionHook` owning the installed-and-enabled hook at 0x400000. -/
def demoFH : FunctionHook :=
  ⟨"", 0x400000, 0x401000, 0x400000, HookType.HOOK_JMP, true, true⟩

/-- Witness for C7: removing the enabled hook at 0x400000 succeeds and
leaves zero records; tearing the owning `FunctionHook` down also leaves
zero records. -/
theorem remove_implicit_disable_and_teardown_witness :
    ((removeHook demoS3 0x400000).1 = MHStatus.MH_OK ∧
      countTarget (removeHook demoS3 0x400000).2 0x400000 = 0) ∧
    countTarget (FunctionHook.dtor demoFH demoS3) 0x400000 = 0 :=
  ⟨(remove_implicit_disable_and_teardown demoS3 demoFH demoS3_reachable).1 0x400000
      demoRecEnabled (by decide),
   (remove_implicit_disable_and_teardown demoS3 demoFH demoS3_reachable).2 rfl⟩
